import Mathlib

/-!
Verification development for the keypoint_labeler repository.

The definitions below are a shallow embedding of the Python sources:
  * src/viewer/canvas.py   (ImageCanvas: view transform, click handling, undo)
  * src/viewer/json_io.py  (JSONIO.load_keypoints / save_keypoints)
  * src/app.py             (KeypointLabeler.load_file / save_current)

Modelling conventions:
  * Python float arithmetic is modelled with exact rationals; int() is
    truncation toward zero (pyTrunc) and round() is round-half-to-even
    (pyRound), as in Python 3.
  * Python lists of two ints become pairs of integers; list indices that the
    code stores in int variables (selected_point, last_added_point) stay
    integers, with -1 as the "none" sentinel exactly as in the source.
  * Euclidean distances are compared through their squares.  The code compares
    values of the form sqrt(d2) with each other and with a nonnegative integer
    threshold; since sqrt is strictly monotone on nonnegative reals, every such
    comparison is equivalent to the comparison of the squared values, which is
    what the embedding uses.  No other use is made of the distances.
  * Qt geometry follows the Qt 5 sources: QSize.scaled with KeepAspectRatio
    fits the pixmap size inside the target size (integer division), QPixmap
    .scaled clamps both result dimensions to at least 1 (and yields an empty
    pixmap if the requested size is empty), and QRect.contains uses
    right = left + width - 1.
-/

set_option allowUnsafeReducibility true
attribute [local semireducible] Rat.mul Rat.add Rat.sub Rat.inv Rat.ofScientific

/-- Python int() on a rational: truncation toward zero. -/
def pyTrunc (q : ℚ) : ℤ := if q < 0 then -Int.floor (-q) else Int.floor q

/-- Python 3 round() to an integer: round half to even. -/
def pyRound (q : ℚ) : ℤ :=
  let f := Int.floor q
  let r := q - (f : ℚ)
  if r < 1/2 then f
  else if 1/2 < r then f + 1
  else if f % 2 = 0 then f else f + 1

/-! ## JSON model (src/viewer/json_io.py, src/app.py)

JSON values as produced by Python json.load: objects keep key order and
are modelled as association lists.  Python bool is a subtype of int, so the
numeric test isinstance(x, (int, float)) also accepts booleans; this is
captured by numeric_value. -/

inductive JVal where
  | null : JVal
  | bool : Bool → JVal
  | num : ℚ → JVal
  | str : String → JVal
  | arr : List JVal → JVal
  | obj : List (String × JVal) → JVal

/-- The Python check isinstance(x, (int, float)) together with the numeric
value of x.  Booleans pass the check (bool is an int subtype in Python) and
coerce to 0 or 1. -/
def numeric_value : JVal → Option ℚ
  | JVal.num q => some q
  | JVal.bool b => some (if b then 1 else 0)
  | _ => none

/-- One iteration of the validation loop of JSONIO.load_keypoints
(json_io.py lines 33-38): keep an entry only when it is a two-element list
whose components pass the numeric test, converting with int(round(.)). -/
def entry_to_pair : JVal → Option (ℤ × ℤ)
  | JVal.arr (a :: b :: []) =>
    match numeric_value a, numeric_value b with
    | some qa, some qb => some (pyRound qa, pyRound qb)
    | _, _ => none
  | _ => none

/-- JSONIO.load_keypoints (json_io.py lines 17-48) applied to an existing file
whose contents parse as a JSON object with the given fields: the branches for
a missing file and for parse errors are not reachable in that case. -/
def load_keypoints (fields : List (String × JVal)) : List (ℤ × ℤ) :=
  match fields.lookup "coord" with
  | some (JVal.arr coords) => coords.filterMap entry_to_pair
  | _ => []

/-- Python dict.update: existing keys are overwritten in place, new keys are
appended in order. -/
def dict_update (d : List (String × JVal)) (upd : List (String × JVal)) :
    List (String × JVal) :=
  upd.foldl
    (fun acc kv =>
      if (acc.lookup kv.1).isSome then
        acc.map (fun e => if e.1 = kv.1 then kv else e)
      else acc ++ [kv])
    d

/-- The JSON object written by JSONIO.save_keypoints (json_io.py lines 58-70):
a fresh dict with the coord array, merged with additional_data when that
argument is truthy (None and the empty dict are falsy).  File-system side
effects (backup, temp file, atomic rename) are outside the data model. -/
def save_keypoints_data (keypoints : List (ℤ × ℤ))
    (additional_data : Option (List (String × JVal))) : List (String × JVal) :=
  let base :=
    [("coord", JVal.arr (keypoints.map fun p =>
        JVal.arr [JVal.num (p.1 : ℚ), JVal.num (p.2 : ℚ)]))]
  match additional_data with
  | some ad => if ad.isEmpty then base else dict_update base ad
  | none => base

/-! ## Canvas state and undo engine (src/viewer/canvas.py) -/

inductive ActionType where
  | add : ActionType
  | delete : ActionType
  | move : ActionType
deriving DecidableEq

/-- The data dict passed to save_state_for_undo by each mutation site. -/
inductive UndoData where
  | addD : ℤ × ℤ → UndoData
  | deleteD : ℤ → ℤ × ℤ → UndoData
  | moveD : ℤ → ℤ × ℤ → ℤ × ℤ → UndoData
deriving DecidableEq

/-- One element of the undo stack (canvas.py lines 621-626). -/
structure UndoEntry where
  action_type : ActionType
  keypoints_before : List (ℤ × ℤ)
  selected_point_before : ℤ
  data : UndoData
deriving DecidableEq

/-- The editing state of ImageCanvas that the claims are about.  pixmap keeps
only the dimensions (width, height); none models self.pixmap is None. -/
structure CanvasState where
  keypoints : List (ℤ × ℤ)
  selected_point : ℤ
  last_added_point : ℤ
  undo_stack : List UndoEntry
  pixmap : Option (ℕ × ℕ)
  zoom_factor : ℚ
  pan_offset : ℤ × ℤ
deriving DecidableEq

def max_undo_steps : ℕ := 50

/-- Python list indexing keypoints[i] for an index held in an int variable;
all call sites guard 0 <= i < len first. -/
def getP (l : List (ℤ × ℤ)) (i : ℤ) : ℤ × ℤ := l.getD i.toNat (0, 0)

/-- Appending to the undo stack followed by the capacity check
(canvas.py lines 628-632): pop(0) evicts the oldest entry. -/
def push_stack (st : List UndoEntry) (e : UndoEntry) : List UndoEntry :=
  let st2 := st ++ [e]
  if max_undo_steps < st2.length then st2.tail else st2

/-- The state dict built by save_state_for_undo: a deep copy of the current
keypoints plus the current selection, taken before the mutation. -/
def mk_undo_entry (s : CanvasState) (t : ActionType) (d : UndoData) : UndoEntry :=
  ⟨t, s.keypoints, s.selected_point, d⟩

/-- ImageCanvas.save_state_for_undo (canvas.py lines 618-632). -/
def save_state_for_undo (s : CanvasState) (t : ActionType) (d : UndoData) :
    CanvasState :=
  { s with undo_stack := push_stack s.undo_stack (mk_undo_entry s t d) }

/-- ImageCanvas.undo (canvas.py lines 634-668).  The Python function returns
None on every path; the Bool component records the truth value of that return
(always false), so that the claim about the empty-stack return value can be
stated.  The move branch patches one point and re-selects it; the add and
delete branches restore the recorded snapshot, and the add branch additionally
resets last_added_point. -/
def undo (s : CanvasState) : Bool × CanvasState :=
  match s.undo_stack.getLast? with
  | none => (false, s)
  | some prev =>
    let st1 := s.undo_stack.dropLast
    match prev.action_type, prev.data with
    | ActionType.move, UndoData.moveD i old _ =>
      if 0 ≤ i ∧ i < (s.keypoints.length : ℤ) then
        (false, { s with keypoints := (s.keypoints.set i.toNat old),
                         selected_point := i, undo_stack := st1 })
      else (false, { s with undo_stack := st1 })
    | ActionType.move, _ => (false, { s with undo_stack := st1 })
    | ActionType.add, _ =>
      (false, { s with keypoints := prev.keypoints_before,
                       selected_point := prev.selected_point_before,
                       last_added_point := -1, undo_stack := st1 })
    | ActionType.delete, _ =>
      (false, { s with keypoints := prev.keypoints_before,
                       selected_point := prev.selected_point_before,
                       undo_stack := st1 })

/-- Squared Euclidean distance; the code computes its square root, which the
embedding compares through squares (see the header). -/
def dist2 (a b : ℤ × ℤ) : ℤ :=
  (a.1 - b.1) * (a.1 - b.1) + (a.2 - b.2) * (a.2 - b.2)

/-- The zoom-adjusted hit radius max(10, int(20 / zoom_factor))
(canvas.py lines 424-425). -/
def click_threshold (z : ℚ) : ℤ := max 10 (pyTrunc (20 / z))

/-- The nearest-point loop of handle_point_click (canvas.py lines 426-432),
carried out on squared distances: idx is the index of the head of l in the
original list, best/bestD2 are the running closest index and its squared
distance (initially -1 and the squared hit radius). -/
def closest_aux (p : ℤ × ℤ) : List (ℤ × ℤ) → ℤ → ℤ → ℤ → ℤ × ℤ
  | [], _, best, bestD2 => (best, bestD2)
  | q :: rest, idx, best, bestD2 =>
    if dist2 q p < bestD2 then closest_aux p rest (idx + 1) idx (dist2 q p)
    else closest_aux p rest (idx + 1) best bestD2

def find_closest_in_click (s : CanvasState) (p : ℤ × ℤ) : ℤ :=
  (closest_aux p s.keypoints 0 (-1)
    (click_threshold s.zoom_factor * click_threshold s.zoom_factor)).1

/-- ImageCanvas.handle_point_click (canvas.py lines 416-446) after the screen
position has been resolved to the image coordinate p: select the closest
point within the hit radius, or append a new point (recording the pre-state
first). -/
def handle_point_click (s : CanvasState) (p : ℤ × ℤ) : CanvasState :=
  let c := find_closest_in_click s p
  if 0 ≤ c then { s with selected_point := c }
  else
    let s1 := save_state_for_undo s ActionType.add (UndoData.addD p)
    { s1 with keypoints := s1.keypoints ++ [p],
              selected_point := (s1.keypoints.length : ℤ),
              last_added_point := (s1.keypoints.length : ℤ) }

/-- ImageCanvas.select_keypoint (canvas.py lines 118-121). -/
def select_keypoint (s : CanvasState) (i : ℤ) : CanvasState :=
  { s with selected_point := i }

/-- ImageCanvas.delete_selected_point (canvas.py lines 509-518). -/
def delete_selected_point (s : CanvasState) : CanvasState :=
  if 0 ≤ s.selected_point ∧ s.selected_point < (s.keypoints.length : ℤ) then
    let s1 := save_state_for_undo s ActionType.delete
      (UndoData.deleteD s.selected_point (getP s.keypoints s.selected_point))
    { s1 with keypoints := s1.keypoints.eraseIdx s.selected_point.toNat,
              selected_point := -1 }
  else s

/-- ImageCanvas.handle_right_click (canvas.py lines 448-468): delete the most
recently added point and fix up the selection. -/
def handle_right_click (s : CanvasState) : CanvasState :=
  if 0 ≤ s.last_added_point ∧ s.last_added_point < (s.keypoints.length : ℤ) then
    let s1 := save_state_for_undo s ActionType.delete
      (UndoData.deleteD s.last_added_point (getP s.keypoints s.last_added_point))
    let s2 := { s1 with keypoints := s1.keypoints.eraseIdx s.last_added_point.toNat }
    let s3 :=
      if s2.selected_point = s.last_added_point then { s2 with selected_point := -1 }
      else if s.last_added_point < s2.selected_point then
        { s2 with selected_point := s2.selected_point - 1 }
      else s2
    { s3 with last_added_point := -1 }
  else s

/-- The clamped target position of a keyboard nudge: the selected point moved
by (dx, dy) and clamped to [0, width-1] x [0, height-1] (9999 without a
pixmap), as computed in move_selected_point (canvas.py lines 497-499). -/
def move_new_pos (s : CanvasState) (m : ℤ × ℤ) : ℤ × ℤ :=
  let xy := getP s.keypoints s.selected_point
  let boundX : ℤ := match s.pixmap with
    | some wh => (wh.1 : ℤ) - 1
    | none => 9999
  let boundY : ℤ := match s.pixmap with
    | some wh => (wh.2 : ℤ) - 1
    | none => 9999
  (max 0 (min boundX (xy.1 + m.1)), max 0 (min boundY (xy.2 + m.2)))

/-- ImageCanvas.move_selected_point (canvas.py lines 492-507): keyboard nudge
of the selected point, clamped to the pixmap bounds (9999 without a pixmap),
recording the pre-move position. -/
def move_selected_point (s : CanvasState) (dx dy : ℤ) : CanvasState :=
  if 0 ≤ s.selected_point ∧ s.selected_point < (s.keypoints.length : ℤ) then
    let s1 := save_state_for_undo s ActionType.move
      (UndoData.moveD s.selected_point (getP s.keypoints s.selected_point)
        (move_new_pos s (dx, dy)))
    { s1 with keypoints :=
        (s1.keypoints.set s.selected_point.toNat (move_new_pos s (dx, dy))) }
  else s

/-- The undo entry that move_selected_point records (used to describe the
shape of the stack after a run of nudges). -/
def move_entry (s : CanvasState) (m : ℤ × ℤ) : UndoEntry :=
  ⟨ActionType.move, s.keypoints, s.selected_point,
   UndoData.moveD s.selected_point (getP s.keypoints s.selected_point)
     (move_new_pos s m)⟩

/-- The list of undo entries produced by a run of nudges. -/
def move_entries : CanvasState → List (ℤ × ℤ) → List UndoEntry
  | _, [] => []
  | s, m :: rest => move_entry s m :: move_entries (move_selected_point s m.1 m.2) rest

/-- A run of consecutive keyboard nudges. -/
def apply_moves (s : CanvasState) (ms : List (ℤ × ℤ)) : CanvasState :=
  ms.foldl (fun t m => move_selected_point t m.1 m.2) s

/-- k consecutive calls to undo. -/
def undo_iter : ℕ → CanvasState → CanvasState
  | 0, s => s
  | k + 1, s => undo_iter k (undo s).2

/-- A run of calls to save_state_for_undo (for the eviction-bound claim). -/
def push_many (s : CanvasState) (es : List (ActionType × UndoData)) : CanvasState :=
  es.foldl (fun t e => save_state_for_undo t e.1 e.2) s

/-! ## View transform (src/viewer/canvas.py geometry) -/

/-- The fields of ImageCanvas that the coordinate transform reads: widget
size, pixmap size, zoom factor and pan offset. -/
structure ViewState where
  widgetW : ℕ
  widgetH : ℕ
  pixmapW : ℕ
  pixmapH : ℕ
  zoom_factor : ℚ
  panX : ℤ
  panY : ℤ
deriving DecidableEq

/-- QSize(int(w * zoom), int(h * zoom)) (canvas.py lines 526-530). -/
def zoomed_size (v : ViewState) : ℕ × ℕ :=
  ((pyTrunc ((v.widgetW : ℚ) * v.zoom_factor)).toNat,
   (pyTrunc ((v.widgetH : ℚ) * v.zoom_factor)).toNat)

/-- Size of pixmap.scaled(zoomed_size, KeepAspectRatio): per the Qt 5 sources,
QSize.scaled fits (pixmapW, pixmapH) inside the target with integer division,
QPixmap.scaled then clamps both dimensions to at least 1, and an empty target
produces an empty pixmap. -/
def scaled_size (v : ViewState) : ℕ × ℕ :=
  let zw := (zoomed_size v).1
  let zh := (zoomed_size v).2
  if zw = 0 ∨ zh = 0 then (0, 0)
  else if v.pixmapW = 0 ∨ v.pixmapH = 0 then (max zw 1, max zh 1)
  else
    let rw := zh * v.pixmapW / v.pixmapH
    if rw ≤ zw then (max rw 1, max zh 1)
    else (max zw 1, max (zw * v.pixmapH / v.pixmapW) 1)

/-- Top-left corner of the drawn content: centering with Python floor
division plus the pan offset (canvas.py lines 540-541, 186-187, 596-597). -/
def image_origin (v : ViewState) : ℤ × ℤ :=
  (Int.fdiv ((v.widgetW : ℤ) - ((scaled_size v).1 : ℤ)) 2 + v.panX,
   Int.fdiv ((v.widgetH : ℤ) - ((scaled_size v).2 : ℤ)) 2 + v.panY)

/-- The membership test of screen_to_image_coords (canvas.py lines 544-545):
inclusive on all four edges. -/
def in_image_area (v : ViewState) (sx sy : ℤ) : Prop :=
  (image_origin v).1 ≤ sx ∧ sx ≤ (image_origin v).1 + ((scaled_size v).1 : ℤ) ∧
  (image_origin v).2 ≤ sy ∧ sy ≤ (image_origin v).2 + ((scaled_size v).2 : ℤ)

instance (v : ViewState) (sx sy : ℤ) : Decidable (in_image_area v sx sy) := by
  unfold in_image_area; infer_instance

/-- One axis of the inverse transform: int((screen - origin) / scaled * pix). -/
def inv_coord (rel scaledDim pixDim : ℤ) : ℤ :=
  pyTrunc ((rel : ℚ) / (scaledDim : ℚ) * (pixDim : ℚ))

/-- ImageCanvas.screen_to_image_coords (canvas.py lines 520-553). -/
def screen_to_image_coords (v : ViewState) (sx sy : ℤ) : Option (ℤ × ℤ) :=
  if in_image_area v sx sy then
    some (inv_coord (sx - (image_origin v).1) ((scaled_size v).1 : ℤ) (v.pixmapW : ℤ),
          inv_coord (sy - (image_origin v).2) ((scaled_size v).2 : ℤ) (v.pixmapH : ℤ))
  else none

/-- The forward transform used by draw_keypoints (canvas.py lines 199-206):
screen = int(image * (scaled / pixmap)) + origin, per axis. -/
def draw_screen_pos (v : ViewState) (x y : ℤ) : ℤ × ℤ :=
  (pyTrunc ((x : ℚ) * (((scaled_size v).1 : ℚ) / (v.pixmapW : ℚ))) + (image_origin v).1,
   pyTrunc ((y : ℚ) * (((scaled_size v).2 : ℚ) / (v.pixmapH : ℚ))) + (image_origin v).2)

/-- QRect(origin, scaled_size).contains(p): Qt rectangles are inclusive with
right = left + width - 1 (get_image_rect, canvas.py lines 576-599). -/
def image_rect_contains (v : ViewState) (px py : ℤ) : Prop :=
  (image_origin v).1 ≤ px ∧ px ≤ (image_origin v).1 + ((scaled_size v).1 : ℤ) - 1 ∧
  (image_origin v).2 ≤ py ∧ py ≤ (image_origin v).2 + ((scaled_size v).2 : ℤ) - 1

instance (v : ViewState) (px py : ℤ) : Decidable (image_rect_contains v px py) := by
  unfold image_rect_contains; infer_instance

/-- The Ctrl+wheel branch of ImageCanvas.wheelEvent (canvas.py lines 316-346):
multiply the zoom factor by 1.1 or 0.9 depending on the wheel direction, clamp
to [0.1, 10.0], and if the zoom changed and the cursor is inside the content
rectangle (computed with the new zoom and the old pan), recompute the pan
offset from new_pan = mouse - (mouse - pan) * (new_zoom / old_zoom). -/
def wheel_zoom (v : ViewState) (mx my : ℤ) (delta : ℤ) : ViewState :=
  let zc : ℚ := if 0 < delta then 11/10 else 9/10
  let old_zoom := v.zoom_factor
  let z2 := max (1/10) (min 10 (old_zoom * zc))
  let v1 : ViewState := { v with zoom_factor := z2 }
  if z2 = old_zoom then v1
  else if image_rect_contains v1 mx my then
    let ratio := z2 / old_zoom
    { v1 with panX := pyTrunc ((mx : ℚ) - ((mx : ℚ) - (v.panX : ℚ)) * ratio),
              panY := pyTrunc ((my : ℚ) - ((my : ℚ) - (v.panY : ℚ)) * ratio) }
  else v1

/-! ## Concrete states used by witnesses and counterexamples -/

def exV1 : ViewState := ⟨100, 100, 10, 10, 1, 0, 0⟩

def cexV1 : ViewState := ⟨10, 10, 100, 100, 1, 0, 0⟩

def cexV2 : ViewState := ⟨400, 400, 400, 400, 1, 0, 0⟩

def exC3 : CanvasState := ⟨[(0, 0), (5, 5)], -1, -1, [], none, 1, (0, 0)⟩

def exC4 : CanvasState := ⟨[(3, 4)], 0, -1, [], none, 1, (0, 0)⟩

def cexC4 : CanvasState := ⟨[(0, 0)], 0, -1, [], none, 1, (0, 0)⟩

def exC5 : CanvasState := ⟨[(7, 8)], 0, -1, [], none, 1, (0, 0)⟩

def exEntryC5 : UndoEntry := ⟨ActionType.add, [], -1, UndoData.addD (0, 0)⟩

def exC6 : CanvasState := ⟨[(1, 2), (3, 4)], 1, 0, [], some (100, 100), 2, (5, -7)⟩

def exC8 : CanvasState := ⟨[(0, 0), (1, 1), (2, 2)], 2, 1, [], none, 1, (0, 0)⟩

def exC9 : CanvasState := ⟨[(0, 0), (2, 0)], -1, -1, [], none, 1, (0, 0)⟩

def c7_fields : List (String × JVal) :=
  [("coord", JVal.arr [JVal.arr [JVal.num 10, JVal.num 20],
                       JVal.arr [JVal.num 30, JVal.num 5]]),
   ("note", JVal.str "x")]

def c10_fields : List (String × JVal) :=
  [("coord", JVal.arr [JVal.arr [JVal.bool true, JVal.num 2]])]

def c10w_fields : List (String × JVal) :=
  [("coord", JVal.arr [JVal.arr [JVal.num (3/2), JVal.num 2], JVal.str "bad"])]

def exC5b : CanvasState := { exC5 with undo_stack := List.replicate 50 exEntryC5 }

def exC5c : CanvasState := { exC5 with undo_stack := [exEntryC5] }

/-! ## Helper lemmas -/

theorem pyTrunc_of_nonneg {q : ℚ} (h : 0 ≤ q) : pyTrunc q = Int.floor q := by
  unfold pyTrunc
  rw [if_neg (not_lt.mpr h)]

theorem set_getD_self {α : Type} (l : List α) (n : ℕ) (d : α) (h : n < l.length) :
    l.set n (l.getD n d) = l := by
  induction l generalizing n with
  | nil => simp at h
  | cons a t ih =>
    cases n with
    | zero => simp
    | succ m =>
      simp only [List.getD_cons_succ, List.set_cons_succ]
      rw [ih m (by simpa using h)]

theorem eraseIdx_getElem?_lt {α : Type} (l : List α) (i j : ℕ) (h : j < i) :
    (l.eraseIdx i)[j]? = l[j]? := by
  induction l generalizing i j with
  | nil => simp [List.eraseIdx]
  | cons a t ih =>
    cases i with
    | zero => omega
    | succ i2 =>
      cases j with
      | zero => simp [List.eraseIdx]
      | succ j2 => simpa [List.eraseIdx] using ih i2 j2 (by omega)

theorem eraseIdx_getElem?_ge {α : Type} (l : List α) (i j : ℕ) (h : i ≤ j) :
    (l.eraseIdx i)[j]? = l[j + 1]? := by
  induction l generalizing i j with
  | nil => simp [List.eraseIdx]
  | cons a t ih =>
    cases i with
    | zero => simp [List.eraseIdx]
    | succ i2 =>
      cases j with
      | zero => omega
      | succ j2 => simpa [List.eraseIdx] using ih i2 j2 (by omega)

theorem push_stack_decomp (st : List UndoEntry) (e : UndoEntry) :
    ∃ a, push_stack st e = a ++ [e]
      ∧ (a = st ∨ (max_undo_steps ≤ st.length ∧ a = st.tail)) := by
  unfold push_stack
  by_cases h : max_undo_steps < (st ++ [e]).length
  · rw [if_pos h]
    rcases st with _ | ⟨h0, t0⟩
    · simp [max_undo_steps] at h
    · refine ⟨t0, rfl, Or.inr ⟨?_, rfl⟩⟩
      simp [max_undo_steps] at h ⊢
      omega
  · rw [if_neg h]
    exact ⟨st, rfl, Or.inl rfl⟩

theorem push_stack_length (st : List UndoEntry) (e : UndoEntry)
    (h : st.length ≤ max_undo_steps) :
    (push_stack st e).length = min (st.length + 1) max_undo_steps := by
  unfold push_stack
  by_cases hlt : max_undo_steps < (st ++ [e]).length
  · rw [if_pos hlt]
    simp [max_undo_steps] at h hlt ⊢
    omega
  · rw [if_neg hlt]
    simp [max_undo_steps] at h hlt ⊢
    omega

theorem push_many_length (es : List (ActionType × UndoData)) (s : CanvasState)
    (h : s.undo_stack.length ≤ max_undo_steps) :
    (push_many s es).undo_stack.length
      = min (s.undo_stack.length + es.length) max_undo_steps := by
  induction es generalizing s with
  | nil =>
    simp [push_many, max_undo_steps] at h ⊢
    omega
  | cons e rest ih =>
    have hstep : (save_state_for_undo s e.1 e.2).undo_stack.length
        = min (s.undo_stack.length + 1) max_undo_steps :=
      push_stack_length s.undo_stack (mk_undo_entry s e.1 e.2) h
    have hle : (save_state_for_undo s e.1 e.2).undo_stack.length ≤ max_undo_steps := by
      rw [hstep]; omega
    have := ih (save_state_for_undo s e.1 e.2) hle
    have hpm : push_many s (e :: rest) = push_many (save_state_for_undo s e.1 e.2) rest := rfl
    rw [hpm, this, hstep]
    simp [max_undo_steps] at *
    omega

theorem undo_pops_last (s : CanvasState) (st : List UndoEntry) (e : UndoEntry)
    (h : s.undo_stack = st ++ [e]) : ((undo s).2).undo_stack = st := by
  unfold undo
  rw [h, List.getLast?_concat]
  rcases e with ⟨t, kb, sb, d⟩
  cases t <;> cases d
  all_goals simp [List.dropLast_concat]
  all_goals (split <;> rfl)

@[simp] theorem save_keypoints_eq (s : CanvasState) (t : ActionType) (d : UndoData) :
    (save_state_for_undo s t d).keypoints = s.keypoints := rfl

@[simp] theorem save_selected_eq (s : CanvasState) (t : ActionType) (d : UndoData) :
    (save_state_for_undo s t d).selected_point = s.selected_point := rfl

@[simp] theorem save_last_added_eq (s : CanvasState) (t : ActionType) (d : UndoData) :
    (save_state_for_undo s t d).last_added_point = s.last_added_point := rfl

@[simp] theorem save_pixmap_eq (s : CanvasState) (t : ActionType) (d : UndoData) :
    (save_state_for_undo s t d).pixmap = s.pixmap := rfl

@[simp] theorem save_zoom_eq (s : CanvasState) (t : ActionType) (d : UndoData) :
    (save_state_for_undo s t d).zoom_factor = s.zoom_factor := rfl

@[simp] theorem save_pan_eq (s : CanvasState) (t : ActionType) (d : UndoData) :
    (save_state_for_undo s t d).pan_offset = s.pan_offset := rfl

theorem save_stack_eq (s : CanvasState) (t : ActionType) (d : UndoData) :
    (save_state_for_undo s t d).undo_stack
      = push_stack s.undo_stack (mk_undo_entry s t d) := rfl

/-! ## Claim C5: eviction bound of the undo stack -/

/-- C5: the undo stack never exceeds max_undo_steps (50) entries; a push at
capacity evicts the oldest entry (index 0) and appends the new one; after at
least 50 recorded edits starting from any reachable stack the length is
exactly 50; and undo pops the newest entry (LIFO). -/
theorem C5_eviction_bound :
    (∀ (s : CanvasState) (t : ActionType) (d : UndoData),
        s.undo_stack.length ≤ max_undo_steps →
        (save_state_for_undo s t d).undo_stack.length
          = min (s.undo_stack.length + 1) max_undo_steps)
  ∧ (∀ (s : CanvasState) (t : ActionType) (d : UndoData),
        s.undo_stack.length = max_undo_steps →
        (save_state_for_undo s t d).undo_stack
          = s.undo_stack.tail ++ [mk_undo_entry s t d])
  ∧ (∀ (s : CanvasState) (es : List (ActionType × UndoData)),
        s.undo_stack.length ≤ max_undo_steps → max_undo_steps ≤ es.length →
        (push_many s es).undo_stack.length = max_undo_steps)
  ∧ (∀ (s : CanvasState) (st : List UndoEntry) (e : UndoEntry),
        s.undo_stack = st ++ [e] → ((undo s).2).undo_stack = st) := by
  refine ⟨?_, ?_, ?_, ?_⟩
  · intro s t d h
    exact push_stack_length s.undo_stack (mk_undo_entry s t d) h
  · intro s t d h
    show push_stack s.undo_stack (mk_undo_entry s t d) = _
    unfold push_stack
    rw [if_pos (by simp [max_undo_steps] at h ⊢; omega)]
    rcases hst : s.undo_stack with _ | ⟨h0, t0⟩
    · rw [hst] at h; simp [max_undo_steps] at h
    · rfl
  · intro s es h hlen
    rw [push_many_length es s h]
    omega
  · intro s st e h
    exact undo_pops_last s st e h

/-- Concrete instances of C5_eviction_bound: a push at a full stack of 50
entries evicts the head, 50 pushes from an empty stack give length 50, a push
below capacity grows the stack by one, and undo pops the single entry. -/
theorem C5_witness :
    (save_state_for_undo exC5b ActionType.add (UndoData.addD (0, 0))).undo_stack
        = exC5b.undo_stack.tail ++ [mk_undo_entry exC5b ActionType.add (UndoData.addD (0, 0))]
  ∧ (push_many exC5
      (List.replicate 50 (ActionType.add, UndoData.addD (0, 0)))).undo_stack.length
        = max_undo_steps
  ∧ (save_state_for_undo exC5 ActionType.add (UndoData.addD (0, 0))).undo_stack.length
        = min (exC5.undo_stack.length + 1) max_undo_steps
  ∧ ((undo exC5c).2).undo_stack = [] :=
  ⟨C5_eviction_bound.2.1 exC5b ActionType.add (UndoData.addD (0, 0)) (by decide),
   C5_eviction_bound.2.2.1 exC5
     (List.replicate 50 (ActionType.add, UndoData.addD (0, 0))) (by decide) (by decide),
   C5_eviction_bound.1 exC5 ActionType.add (UndoData.addD (0, 0)) (by decide),
   C5_eviction_bound.2.2.2 exC5c [] exEntryC5 rfl⟩

/-! ## Claim C6: undo on an empty stack is a falsy no-op -/

/-- C6: with an empty undo stack, undo returns a falsy value (the Python
function returns None) and changes nothing: the whole canvas state, in
particular keypoints, selected_point, last_added_point, zoom_factor and
pan_offset, is unchanged. -/
theorem C6_undo_empty_noop (s : CanvasState) (h : s.undo_stack = []) :
    (undo s).1 = false ∧ (undo s).2 = s := by
  unfold undo
  rw [h]
  exact ⟨rfl, rfl⟩

/-- Concrete instance of C6_undo_empty_noop on a state with nontrivial
keypoints, selection, zoom and pan. -/
theorem C6_witness : (undo exC6).1 = false ∧ (undo exC6).2 = exC6 :=
  C6_undo_empty_noop exC6 rfl

/-! ## Claim C10: behaviour of load_keypoints on well-formed JSON objects -/

/-- C10 counterexample: the coord entry [true, 2] is not a two-element list of
numbers (true is a JSON boolean), yet load_keypoints keeps it as (1, 2)
instead of dropping it, because the Python check isinstance(x, (int, float))
accepts bool (a subtype of int).  The claim as stated requires the entry to be
silently dropped, which would give the empty list. -/
theorem C10_counterexample :
    load_keypoints c10_fields = [(1, 2)] ∧ load_keypoints c10_fields ≠ [] :=
  ⟨rfl, by decide⟩

/-- C10 as amended: for every existing file that parses to a JSON object,
load_keypoints is total (the model has no error case) and returns integer
pairs.  When the coord field is an array, the result processes its entries in
order, keeping exactly those that are two-element arrays whose components pass
the Python numeric test, where booleans count as numbers (0 and 1) because
bool is an int subtype; kept numeric values are rounded to the nearest
integer (half to even, within 1/2); a missing or non-array coord field yields
the empty list. -/
theorem C10_load_keypoints_behavior :
    (∀ (fields : List (String × JVal)) (coords : List JVal),
        fields.lookup "coord" = some (JVal.arr coords) →
        load_keypoints fields = coords.filterMap entry_to_pair)
  ∧ (∀ fields : List (String × JVal),
        (∀ coords : List JVal, fields.lookup "coord" ≠ some (JVal.arr coords)) →
        load_keypoints fields = [])
  ∧ (∀ (a b : JVal) (qa qb : ℚ),
        numeric_value a = some qa → numeric_value b = some qb →
        entry_to_pair (JVal.arr [a, b]) = some (pyRound qa, pyRound qb))
  ∧ (∀ v : JVal,
        (∀ (a b : JVal) (qa qb : ℚ),
          v = JVal.arr [a, b] → numeric_value a = some qa →
          numeric_value b = some qb → False) →
        entry_to_pair v = none)
  ∧ (∀ q : ℚ, |(pyRound q : ℚ) - q| ≤ 1/2) := by
  refine ⟨?_, ?_, ?_, ?_, ?_⟩
  · intro fields coords h
    unfold load_keypoints
    rw [h]
  · intro fields h
    unfold load_keypoints
    cases hl : fields.lookup "coord" with
    | none => rfl
    | some v => cases v with
      | arr coords => exact absurd hl (h coords)
      | null => rfl
      | bool b => rfl
      | num q => rfl
      | str t => rfl
      | obj o => rfl
  · intro a b qa qb ha hb
    have hred : entry_to_pair (JVal.arr [a, b])
        = match numeric_value a, numeric_value b with
          | some qa, some qb => some (pyRound qa, pyRound qb)
          | _, _ => none := rfl
    rw [hred, ha, hb]
  · intro v h
    cases v with
    | arr l =>
      match l with
      | [] => rfl
      | [a] => rfl
      | a :: b :: c :: rest => rfl
      | [a, b] =>
        cases hna : numeric_value a with
        | none => simp [entry_to_pair, hna]
        | some qa =>
          cases hnb : numeric_value b with
          | none => simp [entry_to_pair, hna, hnb]
          | some qb => exact absurd rfl (fun heq => h a b qa qb heq hna hnb)
    | null => rfl
    | bool b => rfl
    | num q => rfl
    | str t => rfl
    | obj o => rfl
  · intro q
    unfold pyRound
    simp only []
    split_ifs with hlt hgt hev
    all_goals rw [abs_le]
    all_goals constructor
    all_goals push_cast
    all_goals linarith [Int.floor_le q, Int.lt_floor_add_one q]

/-- Concrete instance of C10_load_keypoints_behavior: a coord array with one
valid float pair and one invalid entry loads as the rounded pair alone, and
the rounding of 3/2 is within 1/2. -/
theorem C10_witness :
    load_keypoints c10w_fields = [(2, 2)]
  ∧ |(pyRound ((3 : ℚ)/2) : ℚ) - (3 : ℚ)/2| ≤ 1/2 :=
  ⟨(C10_load_keypoints_behavior.1 c10w_fields
      [JVal.arr [JVal.num (3/2), JVal.num 2], JVal.str "bad"] rfl).trans (by decide),
   C10_load_keypoints_behavior.2.2.2.2 ((3 : ℚ)/2)⟩

/-! ## Claim C7: the load-edit-save round trip drops unknown metadata -/

/-- C7: the application load-edit-save path drops unrecognized top-level
fields.  KeypointLabeler.load_file (app.py lines 352-356) reads the sidecar
with JSONIO.load_keypoints, which returns only the coordinate list, and
save_current (app.py line 427) calls JSONIO.save_keypoints without
additional_data, so the file written back contains only the coord field: for
the input object with fields coord = [[10,20],[30,5]] and note = "x", the
saved object has no note key, while the coord array does equal the (here
unedited) keypoint sequence.  This contradicts the claimed preservation of
unknown metadata keys. -/
theorem C7_metadata_dropped :
    (save_keypoints_data (load_keypoints c7_fields) none).lookup "note" = none
  ∧ load_keypoints c7_fields = [(10, 20), (30, 5)]
  ∧ (save_keypoints_data (load_keypoints c7_fields) none).lookup "coord"
      = some (JVal.arr [JVal.arr [JVal.num 10, JVal.num 20],
                        JVal.arr [JVal.num 30, JVal.num 5]]) :=
  ⟨rfl, rfl, rfl⟩

/-! ## Claim C8: delete re-indexing and selection adjustment -/

/-- C8: handle_right_click with a valid last-added index deletes that point,
shifting every later point down one index; if the deleted index equals the
selection the selection becomes -1; a selection above the deleted index
decrements by one and still refers to the same logical point; a selection
below it is unchanged.  The last-added marker resets. -/
theorem C8_delete_reindex (s : CanvasState)
    (h0 : 0 ≤ s.last_added_point)
    (h1 : s.last_added_point < (s.keypoints.length : ℤ)) :
    (handle_right_click s).keypoints = s.keypoints.eraseIdx s.last_added_point.toNat
  ∧ ((handle_right_click s).keypoints.length : ℤ) = (s.keypoints.length : ℤ) - 1
  ∧ (∀ j : ℕ, (j : ℤ) < s.last_added_point →
      (handle_right_click s).keypoints[j]? = s.keypoints[j]?)
  ∧ (∀ j : ℕ, s.last_added_point ≤ (j : ℤ) →
      (handle_right_click s).keypoints[j]? = s.keypoints[j + 1]?)
  ∧ (s.selected_point = s.last_added_point → (handle_right_click s).selected_point = -1)
  ∧ (s.last_added_point < s.selected_point →
      (handle_right_click s).selected_point = s.selected_point - 1
      ∧ (handle_right_click s).keypoints[(s.selected_point - 1).toNat]?
          = s.keypoints[s.selected_point.toNat]?)
  ∧ (s.selected_point < s.last_added_point →
      (handle_right_click s).selected_point = s.selected_point)
  ∧ (handle_right_click s).last_added_point = -1 := by
  have hkp : (handle_right_click s).keypoints
      = s.keypoints.eraseIdx s.last_added_point.toNat := by
    unfold handle_right_click
    rw [if_pos ⟨h0, h1⟩]
    simp only []
    split
    · rfl
    · split <;> rfl
  have hlap : (handle_right_click s).last_added_point = -1 := by
    unfold handle_right_click
    rw [if_pos ⟨h0, h1⟩]
  have hlen : s.last_added_point.toNat < s.keypoints.length := by omega
  refine ⟨hkp, ?_, ?_, ?_, ?_, ?_, ?_, hlap⟩
  · rw [hkp, List.length_eraseIdx]
    rw [if_pos hlen]
    omega
  · intro j hj
    rw [hkp]
    exact eraseIdx_getElem?_lt s.keypoints s.last_added_point.toNat j (by omega)
  · intro j hj
    rw [hkp]
    exact eraseIdx_getElem?_ge s.keypoints s.last_added_point.toNat j (by omega)
  · intro heq
    unfold handle_right_click
    rw [if_pos ⟨h0, h1⟩]
    simp only [save_selected_eq]
    rw [if_pos heq]
  · intro hgt
    have hsel : (handle_right_click s).selected_point = s.selected_point - 1 := by
      unfold handle_right_click
      rw [if_pos ⟨h0, h1⟩]
      simp only [save_selected_eq]
      rw [if_neg (by omega : ¬s.selected_point = s.last_added_point),
          if_pos hgt]
    refine ⟨hsel, ?_⟩
    rw [hkp]
    have h2 : (s.selected_point - 1).toNat + 1 = s.selected_point.toNat := by omega
    rw [← h2]
    exact eraseIdx_getElem?_ge s.keypoints s.last_added_point.toNat
      (s.selected_point - 1).toNat (by omega)
  · intro hlt
    unfold handle_right_click
    rw [if_pos ⟨h0, h1⟩]
    simp only [save_selected_eq]
    rw [if_neg (by omega : ¬s.selected_point = s.last_added_point),
        if_neg (by omega : ¬s.last_added_point < s.selected_point)]

/-- Concrete instance of C8_delete_reindex, the example from the claim:
deleting index 1 from [[0,0],[1,1],[2,2]] with the selection at index 2
yields [[0,0],[2,2]] with the selection at index 1. -/
theorem C8_witness :
    (handle_right_click exC8).keypoints = [((0 : ℤ), (0 : ℤ)), (2, 2)]
  ∧ (handle_right_click exC8).selected_point = 1 :=
  ⟨((C8_delete_reindex exC8 (by decide) (by decide)).1).trans (by decide),
   by
    have h := (C8_delete_reindex exC8 (by decide) (by decide)).2.2.2.2.2.1
      (by decide)
    exact h.1.trans (by decide)⟩

/-! ## Claim C9: nearest-point tie-break -/

theorem closest_aux_skip (p : ℤ × ℤ) (l : List (ℤ × ℤ)) :
    ∀ (idx best bestD2 : ℤ),
      (∀ j : ℕ, j < l.length → ¬ dist2 (l.getD j (0, 0)) p < bestD2) →
      closest_aux p l idx best bestD2 = (best, bestD2) := by
  induction l with
  | nil => intro idx best bestD2 h; rfl
  | cons q rest ih =>
    intro idx best bestD2 h
    have hq : ¬ dist2 q p < bestD2 := by
      have := h 0 (by simp)
      simpa using this
    show (if dist2 q p < bestD2 then _ else closest_aux p rest (idx + 1) best bestD2) = _
    rw [if_neg hq]
    exact ih (idx + 1) best bestD2 (fun j hj => by
      have := h (j + 1) (by simpa using Nat.succ_lt_succ hj)
      simpa using this)

theorem closest_aux_first_argmin (p : ℤ × ℤ) (l : List (ℤ × ℤ)) :
    ∀ (idx best bestD2 : ℤ) (i : ℕ),
      i < l.length →
      dist2 (l.getD i (0, 0)) p < bestD2 →
      (∀ j : ℕ, j < l.length →
        dist2 (l.getD i (0, 0)) p ≤ dist2 (l.getD j (0, 0)) p) →
      (∀ j : ℕ, j < i →
        dist2 (l.getD i (0, 0)) p < dist2 (l.getD j (0, 0)) p) →
      (closest_aux p l idx best bestD2).1 = idx + (i : ℤ) := by
  induction l with
  | nil => intro idx best bestD2 i hi; simp at hi
  | cons q rest ih =>
    intro idx best bestD2 i hi hthr hmin hfirst
    cases i with
    | zero =>
      have hq : dist2 q p < bestD2 := by simpa using hthr
      show (if dist2 q p < bestD2 then closest_aux p rest (idx + 1) idx (dist2 q p)
            else _).1 = _
      rw [if_pos hq]
      rw [closest_aux_skip p rest (idx + 1) idx (dist2 q p) (fun j hj => by
        have := hmin (j + 1) (by simpa using Nat.succ_lt_succ hj)
        simp only [List.getD_cons_succ, List.getD_cons_zero] at this
        omega)]
      simp
    | succ i2 =>
      have htarget : (q :: rest).getD (i2 + 1) (0, 0) = rest.getD i2 (0, 0) := by simp
      rw [htarget] at hthr hmin hfirst
      have hfq : dist2 (rest.getD i2 (0, 0)) p < dist2 q p := by
        have := hfirst 0 (Nat.succ_pos i2)
        simpa using this
      have hmin2 : ∀ j : ℕ, j < rest.length →
          dist2 (rest.getD i2 (0, 0)) p ≤ dist2 (rest.getD j (0, 0)) p := by
        intro j hj
        have := hmin (j + 1) (by simpa using Nat.succ_lt_succ hj)
        simpa using this
      have hfirst2 : ∀ j : ℕ, j < i2 →
          dist2 (rest.getD i2 (0, 0)) p < dist2 (rest.getD j (0, 0)) p := by
        intro j hj
        have := hfirst (j + 1) (Nat.succ_lt_succ hj)
        simpa using this
      have hi2 : i2 < rest.length := by simpa using hi
      by_cases hq : dist2 q p < bestD2
      · show (if dist2 q p < bestD2 then closest_aux p rest (idx + 1) idx (dist2 q p)
              else _).1 = _
        rw [if_pos hq]
        rw [ih (idx + 1) idx (dist2 q p) i2 hi2 hfq hmin2 hfirst2]
        push_cast
        ring
      · show (if dist2 q p < bestD2 then _
              else closest_aux p rest (idx + 1) best bestD2).1 = _
        rw [if_neg hq]
        rw [ih (idx + 1) best bestD2 i2 hi2 (by omega) hmin2 hfirst2]
        push_cast
        ring

/-- C9: when the resolved click coordinate has a point at index i within the
zoom-adjusted hit radius whose distance is minimal over all points, and every
earlier index is strictly farther (so i is the first index attaining the
minimum, which covers exact ties between i and any later index), the click
selects index i: lowest index wins.  No point is added and nothing is
recorded. -/
theorem C9_tie_break (s : CanvasState) (p : ℤ × ℤ) (i : ℕ)
    (hi : i < s.keypoints.length)
    (hthr : dist2 (s.keypoints.getD i (0, 0)) p
        < click_threshold s.zoom_factor * click_threshold s.zoom_factor)
    (hmin : ∀ j : ℕ, j < s.keypoints.length →
        dist2 (s.keypoints.getD i (0, 0)) p ≤ dist2 (s.keypoints.getD j (0, 0)) p)
    (hfirst : ∀ j : ℕ, j < i →
        dist2 (s.keypoints.getD i (0, 0)) p < dist2 (s.keypoints.getD j (0, 0)) p) :
    find_closest_in_click s p = (i : ℤ)
  ∧ (handle_point_click s p).selected_point = (i : ℤ)
  ∧ (handle_point_click s p).keypoints = s.keypoints
  ∧ (handle_point_click s p).undo_stack = s.undo_stack := by
  have hfind : find_closest_in_click s p = (i : ℤ) := by
    unfold find_closest_in_click
    rw [closest_aux_first_argmin p s.keypoints 0 (-1) _ i hi hthr hmin hfirst]
    ring
  have hsel : handle_point_click s p = { s with selected_point := (i : ℤ) } := by
    unfold handle_point_click
    simp only [hfind]
    rw [if_pos (Int.natCast_nonneg i)]
  exact ⟨hfind, by rw [hsel], by rw [hsel], by rw [hsel]⟩

/-- Concrete instance of C9_tie_break: the click at (1,0) is at squared
distance 1 from both (0,0) and (2,0); the tie resolves to index 0. -/
theorem C9_witness :
    find_closest_in_click exC9 (1, 0) = ((0 : ℕ) : ℤ)
  ∧ (handle_point_click exC9 (1, 0)).selected_point = ((0 : ℕ) : ℤ)
  ∧ (handle_point_click exC9 (1, 0)).keypoints = exC9.keypoints
  ∧ (handle_point_click exC9 (1, 0)).undo_stack = exC9.undo_stack :=
  C9_tie_break exC9 (1, 0) 0 (by decide) (by decide) (by decide) (by decide)

/-! ## Claim C3: structural undo exactness -/

theorem push_stack_getLast (st : List UndoEntry) (e : UndoEntry) :
    (push_stack st e).getLast? = some e := by
  obtain ⟨a, ha, _⟩ := push_stack_decomp st e
  rw [ha, List.getLast?_concat]

theorem pop_after_two_pushes (st : List UndoEntry) (e f : UndoEntry) :
    ∃ b, push_stack (push_stack st e) f = b ++ [f] ∧ ∃ c, b = c ++ [e] := by
  obtain ⟨a1, h1, _⟩ := push_stack_decomp st e
  obtain ⟨a2, h2, hor⟩ := push_stack_decomp (push_stack st e) f
  refine ⟨a2, h2, ?_⟩
  rcases hor with h | ⟨hlen, h⟩
  · exact ⟨a1, by rw [h, h1]⟩
  · rw [h, h1]
    rw [h1] at hlen
    rcases a1 with _ | ⟨x, a1t⟩
    · simp [max_undo_steps] at hlen
    · exact ⟨a1t, rfl⟩

theorem undo_delete_entry (Z : CanvasState) (w : List UndoEntry)
    (kb : List (ℤ × ℤ)) (sb : ℤ) (d : UndoData)
    (h : Z.undo_stack = w ++ [⟨ActionType.delete, kb, sb, d⟩]) :
    (undo Z).2 = { Z with keypoints := kb, selected_point := sb, undo_stack := w } := by
  unfold undo
  rw [h, List.getLast?_concat]
  simp only [List.dropLast_concat]

theorem undo_add_entry (Z : CanvasState) (w : List UndoEntry)
    (kb : List (ℤ × ℤ)) (sb : ℤ) (d : UndoData)
    (h : Z.undo_stack = w ++ [⟨ActionType.add, kb, sb, d⟩]) :
    (undo Z).2 = { Z with keypoints := kb, selected_point := sb,
                          last_added_point := -1, undo_stack := w } := by
  unfold undo
  rw [h, List.getLast?_concat]
  simp only [List.dropLast_concat]

/-- C3: clicking empty space (no point within the hit radius) appends a point
after recording a full snapshot of the pre-add sequence and selection; then
deleting a different point (any index of the original sequence, selected
first) records a full snapshot of the pre-delete sequence and selection; two
undos restore exactly the original sequence, in order, and the pre-add
selection.  The two getLast? conjuncts exhibit the recorded snapshots: each
holds the keypoint sequence and selection from just before its mutation. -/
theorem C3_structural_undo (s : CanvasState) (pos : ℤ × ℤ) (j : ℤ)
    (hempty : find_closest_in_click s pos = -1)
    (hj0 : 0 ≤ j) (hj1 : j < (s.keypoints.length : ℤ)) :
    (undo (undo (delete_selected_point
        (select_keypoint (handle_point_click s pos) j))).2).2.keypoints = s.keypoints
  ∧ (undo (undo (delete_selected_point
        (select_keypoint (handle_point_click s pos) j))).2).2.selected_point
      = s.selected_point
  ∧ (handle_point_click s pos).keypoints = s.keypoints ++ [pos]
  ∧ (handle_point_click s pos).undo_stack.getLast?
      = some ⟨ActionType.add, s.keypoints, s.selected_point, UndoData.addD pos⟩
  ∧ (delete_selected_point (select_keypoint (handle_point_click s pos) j)).keypoints
      = (s.keypoints ++ [pos]).eraseIdx j.toNat
  ∧ (delete_selected_point (select_keypoint (handle_point_click s pos) j)).undo_stack.getLast?
      = some ⟨ActionType.delete, s.keypoints ++ [pos], j,
              UndoData.deleteD j (getP (s.keypoints ++ [pos]) j)⟩ := by
  have h1 : handle_point_click s pos
      = { s with keypoints := s.keypoints ++ [pos],
                 selected_point := (s.keypoints.length : ℤ),
                 last_added_point := (s.keypoints.length : ℤ),
                 undo_stack := push_stack s.undo_stack
                   ⟨ActionType.add, s.keypoints, s.selected_point, UndoData.addD pos⟩ } := by
    unfold handle_point_click
    simp only [hempty]
    rw [if_neg (by decide : ¬ (0 : ℤ) ≤ -1)]
    rfl
  have h2 : select_keypoint (handle_point_click s pos) j
      = { s with keypoints := s.keypoints ++ [pos],
                 selected_point := j,
                 last_added_point := (s.keypoints.length : ℤ),
                 undo_stack := push_stack s.undo_stack
                   ⟨ActionType.add, s.keypoints, s.selected_point, UndoData.addD pos⟩ } := by
    rw [h1]; rfl
  have hguard : (0 : ℤ) ≤ j ∧ j < (((s.keypoints ++ [pos]).length : ℕ) : ℤ) := by
    simp only [List.length_append, List.length_cons, List.length_nil]
    omega
  have h3 : delete_selected_point (select_keypoint (handle_point_click s pos) j)
      = { s with keypoints := (s.keypoints ++ [pos]).eraseIdx j.toNat,
                 selected_point := -1,
                 last_added_point := (s.keypoints.length : ℤ),
                 undo_stack := push_stack
                   (push_stack s.undo_stack
                     ⟨ActionType.add, s.keypoints, s.selected_point, UndoData.addD pos⟩)
                   ⟨ActionType.delete, s.keypoints ++ [pos], j,
                    UndoData.deleteD j (getP (s.keypoints ++ [pos]) j)⟩ } := by
    rw [h2]
    unfold delete_selected_point
    rw [if_pos hguard]
    rfl
  obtain ⟨b, hb, c, hc⟩ := pop_after_two_pushes s.undo_stack
    ⟨ActionType.add, s.keypoints, s.selected_point, UndoData.addD pos⟩
    ⟨ActionType.delete, s.keypoints ++ [pos], j,
     UndoData.deleteD j (getP (s.keypoints ++ [pos]) j)⟩
  have h4 : (undo (delete_selected_point
      (select_keypoint (handle_point_click s pos) j))).2
      = { s with keypoints := s.keypoints ++ [pos],
                 selected_point := j,
                 last_added_point := (s.keypoints.length : ℤ),
                 undo_stack := b } := by
    rw [h3]
    rw [undo_delete_entry _ b (s.keypoints ++ [pos]) j
      (UndoData.deleteD j (getP (s.keypoints ++ [pos]) j)) (by simpa using hb)]
  have h5 : (undo (undo (delete_selected_point
      (select_keypoint (handle_point_click s pos) j))).2).2
      = { s with keypoints := s.keypoints,
                 selected_point := s.selected_point,
                 last_added_point := -1,
                 undo_stack := c } := by
    rw [h4]
    rw [undo_add_entry _ c s.keypoints s.selected_point (UndoData.addD pos)
      (by simpa using hc)]
  refine ⟨by rw [h5], by rw [h5], by rw [h1], ?_, by rw [h3], ?_⟩
  · rw [h1]
    exact push_stack_getLast _ _
  · rw [h3]
    exact push_stack_getLast _ _

/-- Concrete instance of C3_structural_undo: from the two-point state, click
far from both points (appending a third), delete the point at index 0, and
undo twice. -/
theorem C3_witness :
    (undo (undo (delete_selected_point
        (select_keypoint (handle_point_click exC3 (100, 100)) 0))).2).2.keypoints
      = exC3.keypoints
  ∧ (undo (undo (delete_selected_point
        (select_keypoint (handle_point_click exC3 (100, 100)) 0))).2).2.selected_point
      = exC3.selected_point
  ∧ (handle_point_click exC3 (100, 100)).keypoints = exC3.keypoints ++ [(100, 100)]
  ∧ (handle_point_click exC3 (100, 100)).undo_stack.getLast?
      = some ⟨ActionType.add, exC3.keypoints, exC3.selected_point,
              UndoData.addD (100, 100)⟩
  ∧ (delete_selected_point (select_keypoint (handle_point_click exC3 (100, 100)) 0)).keypoints
      = (exC3.keypoints ++ [(100, 100)]).eraseIdx (0 : ℤ).toNat
  ∧ (delete_selected_point (select_keypoint (handle_point_click exC3 (100, 100)) 0)).undo_stack.getLast?
      = some ⟨ActionType.delete, exC3.keypoints ++ [(100, 100)], 0,
              UndoData.deleteD 0 (getP (exC3.keypoints ++ [(100, 100)]) 0)⟩ :=
  C3_structural_undo exC3 (100, 100) 0 (by decide) (by decide) (by decide)

/-! ## Claim C4: move undo exactness (bounded by the stack capacity) -/

theorem move_step_eq (s : CanvasState) (m : ℤ × ℤ)
    (h0 : 0 ≤ s.selected_point) (h1 : s.selected_point < (s.keypoints.length : ℤ)) :
    move_selected_point s m.1 m.2
      = { s with
          keypoints := (s.keypoints.set s.selected_point.toNat (move_new_pos s m)),
          undo_stack := push_stack s.undo_stack (move_entry s m) } := by
  unfold move_selected_point
  rw [if_pos ⟨h0, h1⟩]
  rfl

theorem apply_moves_core (ms : List (ℤ × ℤ)) :
    ∀ s : CanvasState,
      0 ≤ s.selected_point → s.selected_point < (s.keypoints.length : ℤ) →
      (apply_moves s ms).selected_point = s.selected_point
    ∧ (apply_moves s ms).keypoints.length = s.keypoints.length
    ∧ (apply_moves s ms).last_added_point = s.last_added_point
    ∧ (apply_moves s ms).pixmap = s.pixmap
    ∧ (apply_moves s ms).zoom_factor = s.zoom_factor
    ∧ (apply_moves s ms).pan_offset = s.pan_offset := by
  induction ms with
  | nil => intro s h0 h1; exact ⟨rfl, rfl, rfl, rfl, rfl, rfl⟩
  | cons m rest ih =>
    intro s h0 h1
    have hstep := move_step_eq s m h0 h1
    have happ : apply_moves s (m :: rest)
        = apply_moves (move_selected_point s m.1 m.2) rest := rfl
    have hs0 : 0 ≤ (move_selected_point s m.1 m.2).selected_point := by
      rw [hstep]; exact h0
    have hs1 : (move_selected_point s m.1 m.2).selected_point
        < ((move_selected_point s m.1 m.2).keypoints.length : ℤ) := by
      rw [hstep]
      simpa [List.length_set] using h1
    obtain ⟨ha, hb, hc, hd, he, hf⟩ := ih (move_selected_point s m.1 m.2) hs0 hs1
    rw [happ]
    refine ⟨?_, ?_, ?_, ?_, ?_, ?_⟩
    · rw [ha, hstep]
    · rw [hb, hstep]; simp [List.length_set]
    · rw [hc, hstep]
    · rw [hd, hstep]
    · rw [he, hstep]
    · rw [hf, hstep]

theorem move_entries_length (ms : List (ℤ × ℤ)) :
    ∀ s : CanvasState, (move_entries s ms).length = ms.length := by
  induction ms with
  | nil => intro s; rfl
  | cons m rest ih =>
    intro s
    show (move_entry s m :: move_entries (move_selected_point s m.1 m.2) rest).length = _
    simp [ih]

theorem apply_moves_stack (ms : List (ℤ × ℤ)) :
    ∀ (s : CanvasState) (p r : List UndoEntry),
      0 ≤ s.selected_point → s.selected_point < (s.keypoints.length : ℤ) →
      s.undo_stack = p ++ r → r.length + ms.length ≤ max_undo_steps →
      ∃ q, (apply_moves s ms).undo_stack = q ++ (r ++ move_entries s ms) := by
  induction ms with
  | nil =>
    intro s p r h0 h1 hst hlen
    exact ⟨p, by simpa [apply_moves, move_entries] using hst⟩
  | cons m rest ih =>
    intro s p r h0 h1 hst hlen
    have hstep := move_step_eq s m h0 h1
    obtain ⟨a, ha, hor⟩ := push_stack_decomp s.undo_stack (move_entry s m)
    have hsplit : ∃ p2, a = p2 ++ r := by
      rcases hor with h | ⟨hl, h⟩
      · exact ⟨p, by rw [h, hst]⟩
      · rw [hst] at h hl
        rcases p with _ | ⟨x, pt⟩
        · simp only [List.nil_append] at h hl
          simp only [List.length_cons, max_undo_steps] at hl hlen
          omega
        · exact ⟨pt, by rw [h]; rfl⟩
    obtain ⟨p2, hp2⟩ := hsplit
    have hstack : (move_selected_point s m.1 m.2).undo_stack
        = p2 ++ (r ++ [move_entry s m]) := by
      rw [hstep]
      show push_stack s.undo_stack (move_entry s m) = _
      rw [ha, hp2, List.append_assoc]
    have hs0 : 0 ≤ (move_selected_point s m.1 m.2).selected_point := by
      rw [hstep]; exact h0
    have hs1 : (move_selected_point s m.1 m.2).selected_point
        < ((move_selected_point s m.1 m.2).keypoints.length : ℤ) := by
      rw [hstep]
      simpa [List.length_set] using h1
    have hlen2 : (r ++ [move_entry s m]).length + rest.length ≤ max_undo_steps := by
      simp only [List.length_append, List.length_cons, List.length_nil] at *
      omega
    obtain ⟨q, hq⟩ := ih (move_selected_point s m.1 m.2) p2 (r ++ [move_entry s m])
      hs0 hs1 hstack hlen2
    refine ⟨q, ?_⟩
    have happ : apply_moves s (m :: rest)
        = apply_moves (move_selected_point s m.1 m.2) rest := rfl
    have hme : move_entries s (m :: rest)
        = move_entry s m :: move_entries (move_selected_point s m.1 m.2) rest := rfl
    rw [happ, hq, hme]
    simp [List.append_assoc]

theorem undo_move_entry (Z : CanvasState) (w : List UndoEntry)
    (kb : List (ℤ × ℤ)) (sb i : ℤ) (old nw : ℤ × ℤ)
    (h : Z.undo_stack = w ++ [⟨ActionType.move, kb, sb, UndoData.moveD i old nw⟩]) :
    (undo Z).2
      = if 0 ≤ i ∧ i < (Z.keypoints.length : ℤ)
        then { Z with keypoints := (Z.keypoints.set i.toNat old),
                      selected_point := i, undo_stack := w }
        else { Z with undo_stack := w } := by
  unfold undo
  rw [h, List.getLast?_concat]
  simp only [List.dropLast_concat]
  split <;> rfl

theorem undo_move_addD (Z : CanvasState) (w : List UndoEntry)
    (kb : List (ℤ × ℤ)) (sb : ℤ) (pd : ℤ × ℤ)
    (h : Z.undo_stack = w ++ [⟨ActionType.move, kb, sb, UndoData.addD pd⟩]) :
    (undo Z).2 = { Z with undo_stack := w } := by
  unfold undo
  rw [h, List.getLast?_concat]
  simp only [List.dropLast_concat]

theorem undo_move_deleteD (Z : CanvasState) (w : List UndoEntry)
    (kb : List (ℤ × ℤ)) (sb i : ℤ) (pt : ℤ × ℤ)
    (h : Z.undo_stack = w ++ [⟨ActionType.move, kb, sb, UndoData.deleteD i pt⟩]) :
    (undo Z).2 = { Z with undo_stack := w } := by
  unfold undo
  rw [h, List.getLast?_concat]
  simp only [List.dropLast_concat]

theorem undo_step_congr (s t : CanvasState) (w1 w2 : List UndoEntry) (e : UndoEntry)
    (hkp : s.keypoints = t.keypoints) (hsel : s.selected_point = t.selected_point)
    (hlap : s.last_added_point = t.last_added_point) (hpix : s.pixmap = t.pixmap)
    (hz : s.zoom_factor = t.zoom_factor) (hpan : s.pan_offset = t.pan_offset)
    (hs : s.undo_stack = w1 ++ [e]) (ht : t.undo_stack = w2 ++ [e]) :
    (undo s).2.keypoints = (undo t).2.keypoints
  ∧ (undo s).2.selected_point = (undo t).2.selected_point
  ∧ (undo s).2.last_added_point = (undo t).2.last_added_point
  ∧ (undo s).2.pixmap = (undo t).2.pixmap
  ∧ (undo s).2.zoom_factor = (undo t).2.zoom_factor
  ∧ (undo s).2.pan_offset = (undo t).2.pan_offset
  ∧ (undo s).2.undo_stack = w1
  ∧ (undo t).2.undo_stack = w2 := by
  rcases e with ⟨ty, kb, sb, d⟩
  cases ty with
  | add =>
    rw [undo_add_entry s w1 kb sb d hs, undo_add_entry t w2 kb sb d ht]
    exact ⟨rfl, rfl, rfl, hpix, hz, hpan, rfl, rfl⟩
  | delete =>
    rw [undo_delete_entry s w1 kb sb d hs, undo_delete_entry t w2 kb sb d ht]
    exact ⟨rfl, rfl, hlap, hpix, hz, hpan, rfl, rfl⟩
  | move =>
    cases d with
    | addD pd =>
      rw [undo_move_addD s w1 kb sb pd hs, undo_move_addD t w2 kb sb pd ht]
      exact ⟨hkp, hsel, hlap, hpix, hz, hpan, rfl, rfl⟩
    | deleteD i pt =>
      rw [undo_move_deleteD s w1 kb sb i pt hs, undo_move_deleteD t w2 kb sb i pt ht]
      exact ⟨hkp, hsel, hlap, hpix, hz, hpan, rfl, rfl⟩
    | moveD i old nw =>
      rw [undo_move_entry s w1 kb sb i old nw hs, undo_move_entry t w2 kb sb i old nw ht]
      by_cases hc : 0 ≤ i ∧ i < (s.keypoints.length : ℤ)
      · have hc2 : 0 ≤ i ∧ i < (t.keypoints.length : ℤ) := by rw [← hkp]; exact hc
        rw [if_pos hc, if_pos hc2]
        exact ⟨by rw [hkp], rfl, hlap, hpix, hz, hpan, rfl, rfl⟩
      · have hc2 : ¬ (0 ≤ i ∧ i < (t.keypoints.length : ℤ)) := by rw [← hkp]; exact hc
        rw [if_neg hc, if_neg hc2]
        exact ⟨hkp, hsel, hlap, hpix, hz, hpan, rfl, rfl⟩

theorem undo_iter_congr (k : ℕ) :
    ∀ (r p1 p2 : List UndoEntry) (s t : CanvasState),
      s.keypoints = t.keypoints → s.selected_point = t.selected_point →
      s.last_added_point = t.last_added_point → s.pixmap = t.pixmap →
      s.zoom_factor = t.zoom_factor → s.pan_offset = t.pan_offset →
      s.undo_stack = p1 ++ r → t.undo_stack = p2 ++ r → k ≤ r.length →
      (undo_iter k s).keypoints = (undo_iter k t).keypoints
    ∧ (undo_iter k s).selected_point = (undo_iter k t).selected_point
    ∧ (undo_iter k s).last_added_point = (undo_iter k t).last_added_point
    ∧ (undo_iter k s).pixmap = (undo_iter k t).pixmap
    ∧ (undo_iter k s).zoom_factor = (undo_iter k t).zoom_factor
    ∧ (undo_iter k s).pan_offset = (undo_iter k t).pan_offset := by
  induction k with
  | zero =>
    intro r p1 p2 s t hkp hsel hlap hpix hz hpan hs ht hk
    exact ⟨hkp, hsel, hlap, hpix, hz, hpan⟩
  | succ k2 ih =>
    intro r p1 p2 s t hkp hsel hlap hpix hz hpan hs ht hk
    have hrne : r ≠ [] := by
      intro hnil
      rw [hnil] at hk
      simp at hk
    have hr : r.dropLast ++ [r.getLast hrne] = r := List.dropLast_append_getLast hrne
    have hs2 : s.undo_stack = (p1 ++ r.dropLast) ++ [r.getLast hrne] := by
      rw [hs, List.append_assoc, hr]
    have ht2 : t.undo_stack = (p2 ++ r.dropLast) ++ [r.getLast hrne] := by
      rw [ht, List.append_assoc, hr]
    obtain ⟨ha, hb, hc, hd, he, hf, hg, hh⟩ :=
      undo_step_congr s t (p1 ++ r.dropLast) (p2 ++ r.dropLast) (r.getLast hrne)
        hkp hsel hlap hpix hz hpan hs2 ht2
    have hlen : k2 ≤ r.dropLast.length := by
      rw [List.length_dropLast]
      omega
    have hstep : undo_iter (k2 + 1) s = undo_iter k2 (undo s).2 := rfl
    have hstep2 : undo_iter (k2 + 1) t = undo_iter k2 (undo t).2 := rfl
    rw [hstep, hstep2]
    exact ih r.dropLast p1 p2 (undo s).2 (undo t).2
      ha hb hc hd he hf hg hh hlen

theorem apply_moves_undo_aux (ms : List (ℤ × ℤ)) :
    ∀ (s : CanvasState) (k : ℕ),
      0 ≤ s.selected_point → s.selected_point < (s.keypoints.length : ℤ) →
      ms.length ≤ max_undo_steps → k ≤ ms.length →
      (undo_iter k (apply_moves s ms)).keypoints
        = (apply_moves s (ms.take (ms.length - k))).keypoints
      ∧ (0 < k → (undo_iter k (apply_moves s ms)).selected_point = s.selected_point) := by
  induction ms using List.reverseRecOn with
  | nil =>
    intro s k h0 h1 hms hk
    have hk0 : k = 0 := by simpa using hk
    subst hk0
    exact ⟨rfl, fun h => absurd h (by omega)⟩
  | append_singleton ms2 m ih =>
    intro s k h0 h1 hms hk
    rcases Nat.eq_zero_or_pos k with hk0 | hkpos
    · subst hk0
      refine ⟨?_, fun h => absurd h (by omega)⟩
      rw [Nat.sub_zero, List.take_length]
      rfl
    · obtain ⟨k2, rfl⟩ : ∃ k2, k = k2 + 1 := ⟨k - 1, by omega⟩
      have hms49 : ms2.length + 1 ≤ max_undo_steps := by
        simpa using hms
      have hms2 : ms2.length ≤ max_undo_steps := by omega
      have hk2 : k2 ≤ ms2.length := by
        simp only [List.length_append, List.length_cons, List.length_nil] at hk
        omega
      obtain ⟨hAsel, hAlen, hAlap, hApix, hAz, hApan⟩ := apply_moves_core ms2 s h0 h1
      have hA0 : 0 ≤ (apply_moves s ms2).selected_point := by rw [hAsel]; exact h0
      have hA1 : (apply_moves s ms2).selected_point
          < ((apply_moves s ms2).keypoints.length : ℤ) := by
        rw [hAsel, hAlen]; exact h1
      have happ : apply_moves s (ms2 ++ [m])
          = move_selected_point (apply_moves s ms2) m.1 m.2 := by
        unfold apply_moves
        rw [List.foldl_append]
        rfl
      have hstep := move_step_eq (apply_moves s ms2) m hA0 hA1
      obtain ⟨a, ha, hor⟩ :=
        push_stack_decomp (apply_moves s ms2).undo_stack
          (move_entry (apply_moves s ms2) m)
      have hXstack : (apply_moves s (ms2 ++ [m])).undo_stack
          = a ++ [move_entry (apply_moves s ms2) m] := by
        rw [happ, hstep]
        exact ha
      have hcond : 0 ≤ (apply_moves s ms2).selected_point
          ∧ (apply_moves s ms2).selected_point
            < ((apply_moves s (ms2 ++ [m])).keypoints.length : ℤ) := by
        refine ⟨hA0, ?_⟩
        rw [happ, hstep]
        simpa [List.length_set] using hA1
      have hu1 := undo_move_entry (apply_moves s (ms2 ++ [m])) a
        (apply_moves s ms2).keypoints (apply_moves s ms2).selected_point
        (apply_moves s ms2).selected_point
        (getP (apply_moves s ms2).keypoints (apply_moves s ms2).selected_point)
        (move_new_pos (apply_moves s ms2) m) hXstack
      rw [if_pos hcond] at hu1
      have htoNat : (apply_moves s ms2).selected_point.toNat
          < (apply_moves s ms2).keypoints.length := by omega
      have hkpres : (undo (apply_moves s (ms2 ++ [m]))).2.keypoints
          = (apply_moves s ms2).keypoints := by
        rw [hu1]
        simp only [happ, hstep]
        rw [List.set_set]
        exact set_getD_self _ _ _ htoNat
      have hselres : (undo (apply_moves s (ms2 ++ [m]))).2.selected_point
          = (apply_moves s ms2).selected_point := by
        rw [hu1]
      have hlapres : (undo (apply_moves s (ms2 ++ [m]))).2.last_added_point
          = (apply_moves s ms2).last_added_point := by
        rw [hu1]
        simp only [happ, hstep]
      have hpixres : (undo (apply_moves s (ms2 ++ [m]))).2.pixmap
          = (apply_moves s ms2).pixmap := by
        rw [hu1]
        simp only [happ, hstep]
      have hzres : (undo (apply_moves s (ms2 ++ [m]))).2.zoom_factor
          = (apply_moves s ms2).zoom_factor := by
        rw [hu1]
        simp only [happ, hstep]
      have hpanres : (undo (apply_moves s (ms2 ++ [m]))).2.pan_offset
          = (apply_moves s ms2).pan_offset := by
        rw [hu1]
        simp only [happ, hstep]
      obtain ⟨pre, hpre⟩ := apply_moves_stack ms2 s s.undo_stack [] h0 h1 (by simp)
        (by simpa using hms2)
      have hpre2 : (apply_moves s ms2).undo_stack = pre ++ move_entries s ms2 := by
        simpa using hpre
      have hstacksplit : ∃ p2, a = p2 ++ move_entries s ms2 := by
        rcases hor with h | ⟨hl, h⟩
        · exact ⟨pre, by rw [h, hpre2]⟩
        · rw [hpre2] at h hl
          rcases pre with _ | ⟨x, pt⟩
          · exfalso
            simp only [List.nil_append] at hl
            rw [move_entries_length] at hl
            simp only [max_undo_steps] at hl hms49
            omega
          · exact ⟨pt, by rw [h]; rfl⟩
      obtain ⟨p2, hp2a⟩ := hstacksplit
      have hstackres : (undo (apply_moves s (ms2 ++ [m]))).2.undo_stack
          = p2 ++ move_entries s ms2 := by
        rw [hu1]
        exact hp2a
      obtain ⟨ca, cb, cc, cd, ce, cf⟩ := undo_iter_congr k2 (move_entries s ms2) p2 pre
        (undo (apply_moves s (ms2 ++ [m]))).2 (apply_moves s ms2)
        hkpres (hselres.trans rfl) hlapres hpixres hzres hpanres
        hstackres hpre2
        (by rw [move_entries_length]; exact hk2)
      obtain ⟨ihkp, ihsel⟩ := ih s k2 h0 h1 hms2 hk2
      have hiter : undo_iter (k2 + 1) (apply_moves s (ms2 ++ [m]))
          = undo_iter k2 (undo (apply_moves s (ms2 ++ [m]))).2 := rfl
      constructor
      · rw [hiter, ca, ihkp]
        have hidx : (ms2 ++ [m]).length - (k2 + 1) = ms2.length - k2 := by
          simp only [List.length_append, List.length_cons, List.length_nil]
          omega
        rw [hidx, List.take_append_of_le_length (by omega)]
      · intro _
        rw [hiter, cb]
        rcases Nat.eq_zero_or_pos k2 with h2 | h2
        · subst h2
          exact hAsel
        · exact ihsel h2

set_option maxRecDepth 4000 in
/-- C4 counterexample to the unbounded claim: 51 consecutive nudges of the
single selected point by (1,0) starting from an empty undo stack, followed by
51 calls to undo, leave the point at (1,0), not at its position (0,0) before
the first nudge: the entry of the first nudge was evicted when the stack
reached its 50-entry capacity, and the 51st undo finds an empty stack. -/
theorem C4_counterexample :
    (undo_iter 51 (apply_moves cexC4 (List.replicate 51 ((1 : ℤ), (0 : ℤ))))).keypoints
      = [(1, 0)]
  ∧ (undo_iter 51 (apply_moves cexC4 (List.replicate 51 ((1 : ℤ), (0 : ℤ))))).keypoints
      ≠ cexC4.keypoints := by
  constructor <;> decide

/-- C4 as amended: for every valid selected index and every run of N
consecutive keyboard nudges of that index with N at most max_undo_steps (50),
each nudge recording the pre-move position, undoing k of them (k at most N)
leaves the keypoints exactly as they were after the first N - k nudges - so
the prior positions are restored in reverse order, ending after N undos with
the point at its position before the first nudge - and every undo sets the
selection to that index.  The bound is forced by the 50-entry eviction
(C4_counterexample); the claim as stated quantifies over every N. -/
theorem C4_move_undo (s : CanvasState) (ms : List (ℤ × ℤ)) (k : ℕ)
    (h0 : 0 ≤ s.selected_point) (h1 : s.selected_point < (s.keypoints.length : ℤ))
    (hms : ms.length ≤ max_undo_steps) (hk : k ≤ ms.length) :
    (undo_iter k (apply_moves s ms)).keypoints
      = (apply_moves s (ms.take (ms.length - k))).keypoints
  ∧ (0 < k → (undo_iter k (apply_moves s ms)).selected_point = s.selected_point) :=
  apply_moves_undo_aux ms s k h0 h1 hms hk

/-- Concrete instance of C4_move_undo: three nudges, two undos, leaving the
state of the first nudge and the original selection. -/
theorem C4_witness :
    (undo_iter 2 (apply_moves exC4 [((1 : ℤ), (0 : ℤ)), (0, 2), (5, 5)])).keypoints
      = (apply_moves exC4
          ([((1 : ℤ), (0 : ℤ)), (0, 2), (5, 5)].take
            ([((1 : ℤ), (0 : ℤ)), (0, 2), (5, 5)].length - 2))).keypoints
  ∧ (0 < 2 →
      (undo_iter 2 (apply_moves exC4 [((1 : ℤ), (0 : ℤ)), (0, 2), (5, 5)])).selected_point
        = exC4.selected_point) :=
  C4_move_undo exC4 [((1 : ℤ), (0 : ℤ)), (0, 2), (5, 5)] 2
    (by decide) (by decide) (by decide) (by decide)

/-! ## Claim C1: screen/image round trip -/

theorem roundtrip_axis (W sw : ℕ) (x : ℤ) (hW : 0 < W) (hup : W ≤ sw)
    (hx0 : 0 ≤ x) (_hxW : x < (W : ℤ)) :
    x - 1 ≤ inv_coord (pyTrunc ((x : ℚ) * ((sw : ℚ) / (W : ℚ)))) (sw : ℤ) (W : ℤ)
  ∧ inv_coord (pyTrunc ((x : ℚ) * ((sw : ℚ) / (W : ℚ)))) (sw : ℤ) (W : ℤ) ≤ x := by
  have hWQ : (0 : ℚ) < (W : ℚ) := by exact_mod_cast hW
  have hswQ : (0 : ℚ) < (sw : ℚ) := by exact_mod_cast lt_of_lt_of_le hW hup
  have hW0 : (W : ℚ) ≠ 0 := ne_of_gt hWQ
  have hsw0 : (sw : ℚ) ≠ 0 := ne_of_gt hswQ
  have hxQ : (0 : ℚ) ≤ (x : ℚ) := by exact_mod_cast hx0
  have hf0 : (0 : ℚ) ≤ (x : ℚ) * ((sw : ℚ) / (W : ℚ)) :=
    mul_nonneg hxQ (by positivity)
  have hfdef : pyTrunc ((x : ℚ) * ((sw : ℚ) / (W : ℚ)))
      = Int.floor ((x : ℚ) * ((sw : ℚ) / (W : ℚ))) := pyTrunc_of_nonneg hf0
  set f := Int.floor ((x : ℚ) * ((sw : ℚ) / (W : ℚ))) with hfs
  have hf_le : (f : ℚ) ≤ (x : ℚ) * ((sw : ℚ) / (W : ℚ)) := Int.floor_le _
  have hf_gt : (x : ℚ) * ((sw : ℚ) / (W : ℚ)) - 1 < (f : ℚ) := Int.sub_one_lt_floor _
  have hfge0 : (0 : ℤ) ≤ f := Int.floor_nonneg.mpr hf0
  have hfge0Q : (0 : ℚ) ≤ (f : ℚ) := by exact_mod_cast hfge0
  have hq0 : (0 : ℚ) ≤ ((f : ℤ) : ℚ) / ((sw : ℤ) : ℚ) * ((W : ℤ) : ℚ) := by
    push_cast
    exact mul_nonneg (div_nonneg hfge0Q (le_of_lt hswQ)) (le_of_lt hWQ)
  unfold inv_coord
  rw [hfdef, pyTrunc_of_nonneg hq0]
  have h4 : (f : ℚ) * ((W : ℚ) / (sw : ℚ)) = (f : ℚ) / (sw : ℚ) * (W : ℚ) := by ring
  constructor
  · apply Int.le_floor.mpr
    push_cast
    have h2 : ((x : ℚ) * ((sw : ℚ) / (W : ℚ)) - 1) * ((W : ℚ) / (sw : ℚ))
        < (f : ℚ) * ((W : ℚ) / (sw : ℚ)) :=
      mul_lt_mul_of_pos_right hf_gt (by positivity)
    have h3 : ((x : ℚ) * ((sw : ℚ) / (W : ℚ)) - 1) * ((W : ℚ) / (sw : ℚ))
        = (x : ℚ) - (W : ℚ) / (sw : ℚ) := by
      field_simp
    have h5 : (W : ℚ) / (sw : ℚ) ≤ 1 := by
      rw [div_le_one hswQ]
      exact_mod_cast hup
    linarith
  · have h6 : (f : ℚ) * ((W : ℚ) / (sw : ℚ))
        ≤ ((x : ℚ) * ((sw : ℚ) / (W : ℚ))) * ((W : ℚ) / (sw : ℚ)) :=
      mul_le_mul_of_nonneg_right hf_le (by positivity)
    have h7 : ((x : ℚ) * ((sw : ℚ) / (W : ℚ))) * ((W : ℚ) / (sw : ℚ)) = (x : ℚ) := by
      field_simp
    have h8 : ((f : ℤ) : ℚ) / ((sw : ℤ) : ℚ) * ((W : ℤ) : ℚ) ≤ ((x : ℤ) : ℚ) := by
      push_cast
      linarith
    calc Int.floor (((f : ℤ) : ℚ) / ((sw : ℤ) : ℚ) * ((W : ℤ) : ℚ))
        ≤ Int.floor ((x : ℚ)) := Int.floor_mono h8
      _ = x := Int.floor_intCast x

/-- C1 counterexample to the claim as stated: pixmap 100x100 shown in a
10x10 widget at zoom 1 (content 10x10, a downscale).  The point (57,57) is
inside the pixmap, its drawn position (5,5) is inside the content rectangle,
yet converting that screen position back gives (50,50): an error of 7 pixels,
far beyond the claimed 1-pixel rounding. -/
theorem C1_counterexample :
    (0 : ℤ) ≤ 57 ∧ (57 : ℤ) < (cexV1.pixmapW : ℤ)
  ∧ in_image_area cexV1 (draw_screen_pos cexV1 57 57).1 (draw_screen_pos cexV1 57 57).2
  ∧ draw_screen_pos cexV1 57 57 = (5, 5)
  ∧ screen_to_image_coords cexV1 5 5 = some (50, 50)
  ∧ ¬ ((50 : ℤ) - 57 ≤ 1 ∧ 57 - (50 : ℤ) ≤ 1) := by
  refine ⟨by decide, by decide, by decide, by decide, by decide, by decide⟩

/-- C1 as amended: the round trip recovers the image point to within one
pixel (the inverse is never above the original coordinate and at most one
below it) whenever the displayed content is at least as large as the pixmap
in each axis (scale factor at least 1).  For a downscaled display the
truncation in the forward transform loses up to pixmap/content pixels
(C1_counterexample); the claim as stated quantifies over all view states. -/
theorem C1_roundtrip_upscale (v : ViewState) (x y : ℤ)
    (hW : 0 < v.pixmapW) (hH : 0 < v.pixmapH)
    (hx0 : 0 ≤ x) (hxW : x < (v.pixmapW : ℤ))
    (hy0 : 0 ≤ y) (hyH : y < (v.pixmapH : ℤ))
    (hsw : v.pixmapW ≤ (scaled_size v).1) (hsh : v.pixmapH ≤ (scaled_size v).2)
    (hin : in_image_area v (draw_screen_pos v x y).1 (draw_screen_pos v x y).2) :
    screen_to_image_coords v (draw_screen_pos v x y).1 (draw_screen_pos v x y).2
      = some
        (inv_coord ((draw_screen_pos v x y).1 - (image_origin v).1)
          ((scaled_size v).1 : ℤ) (v.pixmapW : ℤ),
         inv_coord ((draw_screen_pos v x y).2 - (image_origin v).2)
          ((scaled_size v).2 : ℤ) (v.pixmapH : ℤ))
  ∧ x - 1 ≤ inv_coord ((draw_screen_pos v x y).1 - (image_origin v).1)
      ((scaled_size v).1 : ℤ) (v.pixmapW : ℤ)
  ∧ inv_coord ((draw_screen_pos v x y).1 - (image_origin v).1)
      ((scaled_size v).1 : ℤ) (v.pixmapW : ℤ) ≤ x
  ∧ y - 1 ≤ inv_coord ((draw_screen_pos v x y).2 - (image_origin v).2)
      ((scaled_size v).2 : ℤ) (v.pixmapH : ℤ)
  ∧ inv_coord ((draw_screen_pos v x y).2 - (image_origin v).2)
      ((scaled_size v).2 : ℤ) (v.pixmapH : ℤ) ≤ y := by
  have hrelx : (draw_screen_pos v x y).1 - (image_origin v).1
      = pyTrunc ((x : ℚ) * (((scaled_size v).1 : ℚ) / (v.pixmapW : ℚ))) := by
    show pyTrunc ((x : ℚ) * (((scaled_size v).1 : ℚ) / (v.pixmapW : ℚ)))
        + (image_origin v).1 - (image_origin v).1 = _
    ring
  have hrely : (draw_screen_pos v x y).2 - (image_origin v).2
      = pyTrunc ((y : ℚ) * (((scaled_size v).2 : ℚ) / (v.pixmapH : ℚ))) := by
    show pyTrunc ((y : ℚ) * (((scaled_size v).2 : ℚ) / (v.pixmapH : ℚ)))
        + (image_origin v).2 - (image_origin v).2 = _
    ring
  have haxisX := roundtrip_axis v.pixmapW (scaled_size v).1 x hW hsw hx0 hxW
  have haxisY := roundtrip_axis v.pixmapH (scaled_size v).2 y hH hsh hy0 hyH
  refine ⟨?_, ?_, ?_, ?_, ?_⟩
  · unfold screen_to_image_coords
    rw [if_pos hin]
  · rw [hrelx]; exact haxisX.1
  · rw [hrelx]; exact haxisX.2
  · rw [hrely]; exact haxisY.1
  · rw [hrely]; exact haxisY.2

/-- Concrete instance of C1_roundtrip_upscale: pixmap 10x10 in a 100x100
widget at zoom 1 (content 100x100, a 10x upscale); the point (7,3) draws at
(70,30) and converts back exactly. -/
theorem C1_witness :
    screen_to_image_coords exV1 (draw_screen_pos exV1 7 3).1 (draw_screen_pos exV1 7 3).2
      = some
        (inv_coord ((draw_screen_pos exV1 7 3).1 - (image_origin exV1).1)
          ((scaled_size exV1).1 : ℤ) (exV1.pixmapW : ℤ),
         inv_coord ((draw_screen_pos exV1 7 3).2 - (image_origin exV1).2)
          ((scaled_size exV1).2 : ℤ) (exV1.pixmapH : ℤ))
  ∧ (7 : ℤ) - 1 ≤ inv_coord ((draw_screen_pos exV1 7 3).1 - (image_origin exV1).1)
      ((scaled_size exV1).1 : ℤ) (exV1.pixmapW : ℤ)
  ∧ inv_coord ((draw_screen_pos exV1 7 3).1 - (image_origin exV1).1)
      ((scaled_size exV1).1 : ℤ) (exV1.pixmapW : ℤ) ≤ 7
  ∧ (3 : ℤ) - 1 ≤ inv_coord ((draw_screen_pos exV1 7 3).2 - (image_origin exV1).2)
      ((scaled_size exV1).2 : ℤ) (exV1.pixmapH : ℤ)
  ∧ inv_coord ((draw_screen_pos exV1 7 3).2 - (image_origin exV1).2)
      ((scaled_size exV1).2 : ℤ) (exV1.pixmapH : ℤ) ≤ 3 :=
  C1_roundtrip_upscale exV1 7 3 (by decide) (by decide) (by decide) (by decide)
    (by decide) (by decide) (by decide) (by decide) (by decide)

/-! ## Claim C2: zoom-anchor invariant -/

/-- C2: the pixel under the cursor moves during a Ctrl+wheel zoom.  With a
400x400 pixmap filling a 400x400 widget at zoom 1 and pan (0,0), the cursor
(100,100) lies inside the content rectangle before and after the zoom and
resolves to image point (100,100); after one zoom-in step (zoom 1.1, content
440x440) the handler sets pan to (-10,-10) by the formula
mouse - (mouse - pan) * ratio, but the content origin also carries the
centering term (widget - content) // 2 = -20, which the formula ignores, so
the same cursor position now resolves to image point (118,118).  The pixel
under the cursor moved by 18 pixels, far beyond integer rounding, against
both the claim and the intent stated in the code comments. -/
theorem C2_anchor_violated :
    screen_to_image_coords cexV2 100 100 = some (100, 100)
  ∧ image_rect_contains cexV2 100 100
  ∧ image_rect_contains (wheel_zoom cexV2 100 100 120) 100 100
  ∧ (wheel_zoom cexV2 100 100 120).zoom_factor = 11/10
  ∧ (wheel_zoom cexV2 100 100 120).panX = -10
  ∧ screen_to_image_coords (wheel_zoom cexV2 100 100 120) 100 100 = some (118, 118)
  ∧ screen_to_image_coords (wheel_zoom cexV2 100 100 120) 100 100
      ≠ screen_to_image_coords cexV2 100 100 := by
  refine ⟨by decide, by decide, by decide, by decide, by decide, by decide, by decide⟩
